import Mathlib

/-!
Verification development for the rule-evaluation engine of the AI PDF
checker backend (backend/src/index.js).

The JavaScript source is shallowly embedded as executable Lean
definitions:

- strings are Lean strings manipulated through their character lists
  (JavaScript string methods such as trim, toLowerCase, includes and
  slice are reimplemented character by character; case mapping is the
  ASCII mapping, which agrees with JavaScript on the ASCII inputs the
  engine manipulates);
- JSON values produced by JSON.parse are an inductive type Json whose
  numbers are exact integer fractions (a pair of an integer numerator
  and a positive natural denominator), since every JSON numeric literal
  denotes such a fraction;
- the network call to a reasoning backend together with the unwrapping
  of its response envelope is modelled by an outcome parameter of type
  Except Unit String: error means the call threw, ok s means the
  extracted textual payload was s (the empty string models an empty
  payload, which JavaScript treats as falsy);
- JSON.parse on the brace-delimited slice is modelled by a parse
  function parameter of type String to Option Json (none means the
  parse threw); theorems quantify over it, and concrete witnesses
  instantiate it with explicit finite tables;
- the async orchestration is sequentialised: Promise.all over a map
  preserves list order by construction, which the embedding renders as
  List.map.
-/

/-! ## JavaScript character classes and string helpers -/

/-- Character class of the JavaScript regular-expression class backslash-s
(whitespace), also used by String.prototype.trim. -/
def jsWs (c : Char) : Bool :=
  c == ' ' || c == '\t' || c == '\n' || c == '\r' || c == '\x0b' || c == '\x0c' ||
  c.toNat == 0xa0 || c.toNat == 0x1680 ||
  (0x2000 ≤ c.toNat && c.toNat ≤ 0x200a) ||
  c.toNat == 0x2028 || c.toNat == 0x2029 || c.toNat == 0x202f ||
  c.toNat == 0x205f || c.toNat == 0x3000 || c.toNat == 0xfeff

/-- Replace every maximal run of whitespace by a single space, as the
JavaScript replace of the global pattern backslash-s-plus by a space does.
The Boolean argument records whether the previous character belonged to a
whitespace run. -/
def collapseWsGo : Bool → List Char → List Char
  | _, [] => []
  | prevWs, c :: rest =>
    if jsWs c then
      if prevWs then collapseWsGo true rest
      else ' ' :: collapseWsGo true rest
    else c :: collapseWsGo false rest

/-- Whitespace-run collapsing on strings. -/
def collapseWs (s : String) : String :=
  String.mk (collapseWsGo false s.data)

/-- JavaScript String.prototype.trim: drop whitespace from both ends. -/
def jsTrimStr (s : String) : String :=
  String.mk (((s.data.dropWhile jsWs).reverse.dropWhile jsWs).reverse)

/-- ASCII lowercasing, the fragment of JavaScript toLowerCase exercised
by the engine. -/
def strLower (s : String) : String :=
  String.mk (s.data.map Char.toLower)

/-- JavaScript String.prototype.includes: substring test. -/
def strIncludes (hay needle : String) : Bool :=
  (List.range (hay.data.length + 1)).any (fun i => needle.data.isPrefixOf (hay.data.drop i))

/-- Lowercase alphanumeric character class, the regular-expression class
of lowercase letters and digits used to tokenize rules. -/
def isAlnumLower (c : Char) : Bool :=
  (97 ≤ c.toNat && c.toNat ≤ 122) || (48 ≤ c.toNat && c.toNat ≤ 57)

/-- Maximal runs of lowercase alphanumeric characters, as returned by the
global match of the alphanumeric-run pattern; the accumulator holds the
current run reversed. -/
def alnumRunsGo : List Char → List Char → List String
  | [], acc => if acc.isEmpty then [] else [String.mk acc.reverse]
  | c :: rest, acc =>
    if isAlnumLower c then alnumRunsGo rest (c :: acc)
    else if acc.isEmpty then alnumRunsGo rest acc
    else String.mk acc.reverse :: alnumRunsGo rest []

/-- Tokenization of a string into maximal lowercase alphanumeric runs. -/
def alnumRuns (s : String) : List String :=
  alnumRunsGo s.data []

/-- Split point test of the sentence splitter: a space directly preceded
by a period, an exclamation mark or a question mark (the lookbehind
split pattern of the source). The accumulator holds the reversed current
sentence, so its head is the previous character. -/
def sentencePunct (c : Char) : Bool :=
  c == '.' || c == '!' || c == '?'

/-- Core of sentenceSplitter: walk the collapsed text and cut after
sentence punctuation followed by a space (the space is consumed). -/
def sentenceSplitGo : List Char → List Char → List (List Char)
  | [], acc => [acc.reverse]
  | c :: rest, acc =>
    if c == ' ' && (match acc with
        | prev :: _ => sentencePunct prev
        | [] => false) then
      acc.reverse :: sentenceSplitGo rest []
    else sentenceSplitGo rest (c :: acc)

/-- Embedding of sentenceSplitter from the source: collapse whitespace,
split after sentence punctuation, drop empty pieces (the filter of
Boolean). -/
def sentenceSplitter (text : String) : List String :=
  ((sentenceSplitGo (collapseWs text).data []).map String.mk).filter (fun s => s ≠ "")

/-! ## JSON values -/

/-- Exact value of a JSON numeric literal: num over den. For every number
produced by JSON.parse the denominator is positive. -/
structure JNum where
  num : ℤ
  den : ℕ
deriving DecidableEq, Repr

/-- Rational value denoted by a JSON number. -/
def JNum.toRat (x : JNum) : ℚ := (x.num : ℚ) / (x.den : ℚ)

/-- JSON values as produced by JSON.parse. -/
inductive Json where
  | null : Json
  | bool (b : Bool) : Json
  | num (x : JNum) : Json
  | str (s : String) : Json
  | arr (elems : List Json) : Json
  | obj (fields : List (String × Json)) : Json

/-- Property lookup on a parsed JSON value, as JavaScript member access:
on an object the last binding of the key wins (JSON.parse keeps the last
duplicate); every other non-null value has no own properties, so access
gives undefined (none). Access on null throws and is handled separately
by statusAccess. -/
def jget : Json → String → Option Json
  | .obj fields, k => ((fields.reverse.find? (fun p => p.1 == k)).map (fun p => p.2))
  | _, _ => none

/-- JavaScript truthiness of a parsed JSON value. -/
def jsTruthy : Json → Bool
  | .null => false
  | .bool b => b
  | .num x => decide (x.num ≠ 0)
  | .str s => decide (s ≠ "")
  | .arr _ => true
  | .obj _ => true

/-- Test whether a JSON value is a string. -/
def jsonIsStr : Json → Bool
  | .str _ => true
  | _ => false

/-- JavaScript logical-or against a default: keep the value when present
and truthy, otherwise the default. -/
def jsOr (v : Option Json) (d : Json) : Json :=
  match v with
  | some x => if jsTruthy x then x else d
  | none => d

/-! ## The verdict record -/

/-- VerdictResult, the canonical output unit. The evidence and reasoning
fields carry arbitrary JavaScript values because the normalizer copies
backend-supplied values into them unchanged; the heuristic evaluator
always stores strings there. Confidence is an integer on every code path
(fixed 55 or 35, or the result of Math.round). -/
structure Verdict where
  rule : String
  status : String
  evidence : Json
  reasoning : Json
  confidence : ℤ
  source : String

/-! ## Heuristic evaluator -/

/-- Ceiling of two fifths of k, in natural-number arithmetic. This is the
value of Math.ceil of k times 0.4 for every reachable keyword count
(k at most 6 after the cap; the double nearest to 0.4 times such a k
rounds to the same integer as the exact fraction). -/
def ceilTwoFifths (k : ℕ) : ℕ := (2 * k + 4) / 5

/-- The words local of buildFallbackResult: lowercase alphanumeric runs
of the trimmed, lowercased rule. -/
def ruleWords (rule : String) : List String :=
  alnumRuns (strLower (jsTrimStr rule))

/-- The keywords local of buildFallbackResult: words longer than 4
characters, capped at the first 6. -/
def ruleKeywords (rule : String) : List String :=
  ((ruleWords rule).filter (fun w => 4 < w.length)).take 6

/-- The matches local of buildFallbackResult: keywords occurring as
substrings of the lowercased document. -/
def keywordMatches (rule documentText : String) : List String :=
  (ruleKeywords rule).filter (fun kw => strIncludes (strLower documentText) kw)

/-- The threshold local of buildFallbackResult: max 1 (Math.ceil of the
keyword count times 0.4). -/
def fallbackThreshold (rule : String) : ℕ :=
  max 1 (ceilTwoFifths (ruleKeywords rule).length)

/-- The status local of buildFallbackResult. -/
def fallbackStatus (rule documentText : String) : String :=
  if fallbackThreshold rule ≤ (keywordMatches rule documentText).length then "pass" else "fail"

/-- The evidenceSentence local of buildFallbackResult: when at least one
keyword matched, the first sentence containing a matched keyword. -/
def evidenceSentence (rule documentText : String) : Option String :=
  if 0 < (keywordMatches rule documentText).length then
    (sentenceSplitter documentText).find? (fun sentence =>
      (keywordMatches rule documentText).any (fun kw =>
        strIncludes (strLower sentence) (strLower kw)))
  else none

/-- The evidence field of the fallback verdict: the evidence sentence
when present and truthy, else the sentinel. -/
def fallbackEvidence (rule documentText : String) : String :=
  match evidenceSentence rule documentText with
  | some s => if s = "" then "No direct evidence found." else s
  | none => "No direct evidence found."

/-- The reasoning field of the fallback verdict. -/
def fallbackReasoning (rule documentText : String) : String :=
  if fallbackStatus rule documentText = "pass" then
    "Heuristic match for keywords: " ++
      (let joined := String.intercalate ", " (keywordMatches rule documentText)
       if joined = "" then "n/a" else joined) ++ "."
  else "Keywords from the rule were not found in the document text."

/-- Embedding of buildFallbackResult from the source: trim the rule,
tokenize its lowercase alphanumeric words, keep words longer than 4
characters capped at 6 keywords, count keywords occurring in the
lowercased document, pass when the count reaches the threshold of
max 1 (ceil of 0.4 times the keyword count), pick the first sentence
containing a matched keyword as evidence, and emit fixed confidences 55
on pass and 35 on fail with source heuristic. -/
def buildFallbackResult (rule documentText : String) : Verdict :=
  { rule := jsTrimStr rule
    status := fallbackStatus rule documentText
    evidence := Json.str (fallbackEvidence rule documentText)
    reasoning := Json.str (fallbackReasoning rule documentText)
    confidence := if fallbackStatus rule documentText = "pass" then 55 else 35
    source := "heuristic" }

/-! ## Response normalizer -/

/-- Index of the first occurrence of a character, as JavaScript indexOf
(none plays the role of -1). -/
def firstIdxOf (cs : List Char) (c : Char) : Option ℕ :=
  cs.findIdx? (fun x => x == c)

/-- Index of the last occurrence of a character, as JavaScript
lastIndexOf (none plays the role of -1). -/
def lastIdxOf (cs : List Char) (c : Char) : Option ℕ :=
  (cs.reverse.findIdx? (fun x => x == c)).map (fun i => cs.length - 1 - i)

/-- Brace-delimited slice of the raw backend text: the substring from
the first opening brace to the last closing brace inclusive, none when
either brace is absent. JavaScript slice clamps, so a last closing brace
before the first opening brace yields the empty string. -/
def jsonSlice (content : String) : Option String :=
  match firstIdxOf content.data '\x7b', lastIdxOf content.data '\x7d' with
  | some s, some e => some (String.mk ((content.data.drop s).take (e + 1 - s)))
  | _, _ => none

/-- Math.round in JavaScript: round half toward positive infinity, which
is the floor of the value plus one half. On the exact fraction num over
den (den positive) this is the floor division of 2 num + den by 2 den
(integer division in Lean is Euclidean, which is floor division for the
positive divisors arising here). -/
def jsRound (x : JNum) : ℤ := (2 * x.num + x.den) / (2 * (x.den : ℤ))

/-- Clamped rounded confidence: Math.min of 100 and Math.max of 0 and
Math.round of the value. -/
def clampConfidence (x : JNum) : ℤ := min 100 (max 0 (jsRound x))

/-- Evaluation of the optional-chained toLowerCase on the status member:
ok none when the member is absent or null (optional chaining gives
undefined), ok of the lowercased string when it is a string, error when
toLowerCase throws a TypeError (any other value). -/
def statusOfMember : Option Json → Except Unit (Option String)
  | none => .ok none
  | some .null => .ok none
  | some (.str s) => .ok (some (strLower s))
  | some _ => .error ()

/-- Evaluation of the status member chain of the source (member access
on the parsed value, optional chaining, toLowerCase): member access on
null throws a TypeError, otherwise the member is read and lowercased by
statusOfMember. -/
def statusAccess : Json → Except Unit (Option String)
  | .null => .error ()
  | j => statusOfMember (jget j "status")

/-- Confidence mapping of the normalizer: the clamped rounded value when
the member is a number (the typeof check of the source), else the
fallback confidence. -/
def normConfidence (v : Option Json) (d : ℤ) : ℤ :=
  match v with
  | some (.num x) => clampConfidence x
  | _ => d

/-- The verdict record the normalizer builds once the slice parsed and
the status member chain evaluated to stOpt. -/
def normalizeParsed (parsed : Json) (fallback : Verdict) (source : String)
    (stOpt : Option String) : Verdict :=
  { rule := fallback.rule
    status := if stOpt = some "pass" then "pass" else "fail"
    evidence := jsOr (jget parsed "evidence") fallback.evidence
    reasoning := jsOr (jget parsed "reasoning") fallback.reasoning
    confidence := normConfidence (jget parsed "confidence") fallback.confidence
    source := source }

/-- Embedding of parseLLMJson from the source. The parse parameter
models JSON.parse on the brace-delimited slice (none when it throws).
A thrown TypeError while reading the status member is caught by the
surrounding try and yields the fallback, like every other failure. -/
def parseLLMJson (parse : String → Option Json) (content : String)
    (fallback : Verdict) (source : String) : Verdict :=
  match jsonSlice content with
  | none => fallback
  | some slice =>
    match parse slice with
    | none => fallback
    | some parsed =>
      match statusAccess parsed with
      | .error _ => fallback
      | .ok stOpt => normalizeParsed parsed fallback source stOpt

/-! ## Evaluation orchestrator -/

/-- Process-wide backend registry: which clients were constructed at
startup (credential present) and the default provider selected then. -/
structure Config where
  openai : Bool
  mistral : Bool
  groq : Bool
  activeProvider : String

/-- Shared shape of the three provider branches of the source: a thrown
call yields the fallback, an empty extracted payload yields the
fallback, otherwise the payload is normalized against the fallback with
the given source tag. -/
def callBranch (parse : String → Option Json) (outcome : Except Unit String)
    (fallback : Verdict) (source : String) : Verdict :=
  match outcome with
  | .error _ => fallback
  | .ok content => if content = "" then fallback else parseLLMJson parse content fallback source

/-- The effectiveProvider local of evaluateRuleWithLLM: the provider
argument when truthy (a non-empty string), else the process default. -/
def resolvedProvider (cfg : Config) (provider : Option String) : String :=
  match provider with
  | some p => if p = "" then cfg.activeProvider else p
  | none => cfg.activeProvider

/-- Embedding of evaluateRuleWithLLM from the source. The provider
argument is the third JavaScript parameter (none or empty string are
falsy, selecting the process default); outcome models the one backend
call the execution performs together with its envelope unwrapping. The
source computes the fallback verdict once before calling the backend;
buildFallbackResult is pure, so the embedding reuses the expression. -/
def evaluateRuleWithLLM (cfg : Config) (parse : String → Option Json)
    (outcome : Except Unit String) (rule documentText : String)
    (provider : Option String) : Verdict :=
  if resolvedProvider cfg provider = "heuristic" ∨
      (cfg.openai = false ∧ cfg.mistral = false ∧ cfg.groq = false) then
    buildFallbackResult rule documentText
  else if resolvedProvider cfg provider = "openai" ∧ cfg.openai = true then
    callBranch parse outcome (buildFallbackResult rule documentText) "openai"
  else if resolvedProvider cfg provider = "mistral" ∧ cfg.mistral = true then
    callBranch parse outcome (buildFallbackResult rule documentText) "mistral"
  else if resolvedProvider cfg provider = "groq" ∧ cfg.groq = true then
    callBranch parse outcome (buildFallbackResult rule documentText) "groq"
  else buildFallbackResult rule documentText

/-! ## Batch coordinator and request handler -/

/-- Embedding of the Promise.all fan-out of the check endpoint: one
orchestrator invocation per normalized rule, results in input order
(Promise.all resolves to the array of results in the order of the
mapped array, independent of completion order). The outcome function
gives the backend call result for each rule. -/
def evaluateAll (cfg : Config) (parse : String → Option Json)
    (outcome : String → Except Unit String) (normalizedRules : List String)
    (documentText : String) (effective : String) : List Verdict :=
  normalizedRules.map (fun rule =>
    evaluateRuleWithLLM cfg parse (outcome rule) rule documentText (some effective))

/-- Allowed provider selector values of the check endpoint. -/
def allowedProvider (p : String) : Bool :=
  p == "groq" || p == "mistral" || p == "openai" || p == "heuristic"

/-- Embedding of the effectiveProvider computation of the check
endpoint: lowercase and trim the requested provider when it is a string,
keep it when it is non-empty (truthy) and an allowed selector, otherwise
use the process default. -/
def effectiveProvider (cfg : Config) (rawProvider : Option String) : String :=
  match rawProvider with
  | some s =>
    let requested := jsTrimStr (strLower s)
    if requested ≠ "" ∧ allowedProvider requested = true then requested
    else cfg.activeProvider
  | none => cfg.activeProvider

/-- Modelled from the spec: the backend selection the specification
describes, in which a requested backend is kept only when it is both a
valid selector and configured. Stated for comparison with
effectiveProvider, which is the embedding of the source. -/
def configuredProvider (cfg : Config) : String → Bool
  | "openai" => cfg.openai
  | "mistral" => cfg.mistral
  | "groq" => cfg.groq
  | "heuristic" => true
  | _ => false

/-- Modelled from the spec: requested backend when valid and configured,
else the process default. -/
def specEffectiveProvider (cfg : Config) (rawProvider : Option String) : String :=
  match rawProvider with
  | some s =>
    let requested := jsTrimStr (strLower s)
    if requested ≠ "" ∧ allowedProvider requested = true ∧ configuredProvider cfg requested = true
    then requested
    else cfg.activeProvider
  | none => cfg.activeProvider

/-- Cleaning applied to the extracted text inside extractTextFromPdf:
collapse whitespace runs to single spaces, then remove NUL characters,
then trim (the logical-or with the empty string is the identity on the
resulting string). -/
def cleanedText (raw : String) : String :=
  jsTrimStr (String.mk ((collapseWs raw).data.filter (fun c => c != '\x00')))

/-- Embedding of truncateText from the source (the handler calls it with
the default limit 12000). -/
def truncateText (text : String) (limit : ℕ) : String :=
  if limit < text.length then String.mk (text.data.take limit) else text

/-- Unicode control characters (categories of code points the
specification calls control characters: C0 controls, DEL and C1
controls). Used only to state properties about the cleaning. -/
def isControlChar (c : Char) : Bool :=
  c.toNat < 0x20 || (0x7f ≤ c.toNat && c.toNat ≤ 0x9f)

/-- Normalization of one raw rule entry: trim when it is a string, empty
string (falsy, later filtered) otherwise. -/
def jsRuleToStr : Json → String
  | .str s => jsTrimStr s
  | _ => ""

/-- Embedding of the normalizedRules computation of the check endpoint:
trim string entries, map non-string entries to the empty string, drop
falsy entries, keep the first 10. -/
def normalizeRules (rules : List Json) : List String :=
  (((rules.map jsRuleToStr).filter (fun r => r ≠ "")).take 10)

/-- The rules payload of a request, before the array massaging of the
source: either the field is already an array (Array.isArray true,
entries as JavaScript values), or it is a non-array value (a multipart
form field, hence a string) on which JSON.parse is attempted, succeeding
with some JSON value or throwing. -/
inductive RulesPayload where
  | arr (rules : List Json) : RulesPayload
  | parsed (v : Json) : RulesPayload
  | unparsable (s : String) : RulesPayload

/-- Embedding of the rules massaging of the check endpoint: an array
payload is kept; a payload whose JSON.parse succeeded becomes the parsed
value, and the rules.map call that follows throws a TypeError unless
that value is an array (the source never checks Array.isArray on the
parse result); an unparsable payload is wrapped as a one-element array
holding the raw string. The error constructor stands for the TypeError
thrown at rules.map, which the outer catch surfaces as the generic
server error. -/
def massageRules : RulesPayload → Except Unit (List Json)
  | .arr rules => .ok rules
  | .parsed (.arr l) => .ok l
  | .parsed _ => .error ()
  | .unparsable s => .ok [Json.str s]

/-- Whether the massaged rules payload makes rules.map throw. -/
def massageFailed : Option RulesPayload → Bool
  | some payload =>
    match massageRules payload with
    | .error _ => true
    | .ok _ => false
  | none => false

/-- Rejections the check endpoint can surface to the caller. The
nonArrayRules and extractFailed cases are surfaced by the outer catch as
the generic 500 server error; the others are explicit 400 or 422
responses. -/
inductive ReqError where
  | noFile : ReqError
  | noRules : ReqError
  | nonArrayRules : ReqError
  | emptyRules : ReqError
  | extractFailed : ReqError
  | noText : ReqError
deriving DecidableEq, Repr

/-- Test whether the handler produced verdicts rather than a rejection. -/
def isOkResult : Except ReqError (List Verdict) → Bool
  | .ok _ => true
  | .error _ => false

/-- Normalized rules of an optional raw rules payload (empty when the
payload is absent or its massaging throws). -/
def normalizedOf : Option RulesPayload → List String
  | some payload =>
    match massageRules payload with
    | .ok rules => normalizeRules rules
    | .error _ => []
  | none => []

/-- Document text the handler would evaluate against, given the outcome
of the PDF extraction (empty when the extraction threw). -/
def docTextOf : Except Unit String → String
  | .ok raw => truncateText (cleanedText raw) 12000
  | .error _ => ""

/-- Embedding of the check endpoint handler. The file argument models
the uploaded file (presence only), rawRules the rules payload (none when
the field is absent or falsy), rawProvider the provider field when it is
a string, extraction the result of the PDF text extraction (error when
the parser threw, which the outer catch surfaces as a server error, as
it also does for the TypeError of rules.map on a non-array parsed
payload). -/
def checkHandler (cfg : Config) (parse : String → Option Json)
    (outcome : String → Except Unit String) (file : Option Unit)
    (rawRules : Option RulesPayload) (rawProvider : Option String)
    (extraction : Except Unit String) : Except ReqError (List Verdict) :=
  match file with
  | none => .error .noFile
  | some _ =>
    match rawRules with
    | none => .error .noRules
    | some payload =>
      match massageRules payload with
      | .error _ => .error .nonArrayRules
      | .ok rules =>
        let normalizedRules := normalizeRules rules
        if normalizedRules = [] then .error .emptyRules
        else
          let effective := effectiveProvider cfg rawProvider
          match extraction with
          | .error _ => .error .extractFailed
          | .ok raw =>
            let documentText := truncateText (cleanedText raw) 12000
            if documentText = "" then .error .noText
            else .ok (evaluateAll cfg parse outcome normalizedRules documentText effective)

/-! ## Concrete instances used by witnesses and counterexamples -/

/-- Parse function that always fails, modelling JSON.parse throwing on
every input. -/
def parseNone : String → Option Json := fun _ => none

/-- Backend outcome in which every call throws. -/
def outcomeThrow : String → Except Unit String := fun _ => .error ()

/-- Registry with no configured client (default heuristic). -/
def cfgHeuristicOnly : Config := ⟨false, false, false, "heuristic"⟩

/-- Registry with only the openai client configured (default openai). -/
def cfgOpenaiOnly : Config := ⟨true, false, false, "openai"⟩

/-- Backend payload whose JSON object carries a numeric evidence field. -/
def contentEvidence5 : String := "\x7b\"evidence\":5\x7d"

/-- Parsed value of contentEvidence5 under JSON.parse. -/
def objEvidence5 : Json := Json.obj [("evidence", Json.num ⟨5, 1⟩)]

/-- Parse table for contentEvidence5, agreeing with JSON.parse there. -/
def parseEvidence5 : String → Option Json :=
  fun s => if s = contentEvidence5 then some objEvidence5 else none

/-- Backend payload whose JSON object carries a numeric status field. -/
def contentStatus5 : String := "\x7b\"status\":5\x7d"

/-- Parsed value of contentStatus5 under JSON.parse. -/
def objStatus5 : Json := Json.obj [("status", Json.num ⟨5, 1⟩)]

/-- Parse table for contentStatus5, agreeing with JSON.parse there. -/
def parseStatus5 : String → Option Json :=
  fun s => if s = contentStatus5 then some objStatus5 else none

/-- Backend payload with an uppercase pass status and a fractional
confidence above the cap. -/
def contentPassConf : String := "\x7b\"status\":\"PASS\",\"confidence\":132.7\x7d"

/-- Parsed value of contentPassConf under JSON.parse. -/
def objPassConf : Json :=
  Json.obj [("status", Json.str "PASS"), ("confidence", Json.num ⟨1327, 10⟩)]

/-- Parse table for contentPassConf, agreeing with JSON.parse there. -/
def parsePassConf : String → Option Json :=
  fun s => if s = contentPassConf then some objPassConf else none

/-- Backend payload carrying a plain passing verdict. -/
def contentPassOnly : String := "\x7b\"status\":\"pass\"\x7d"

/-- Parsed value of contentPassOnly under JSON.parse. -/
def objPassOnly : Json := Json.obj [("status", Json.str "pass")]

/-- Parse table for contentPassOnly, agreeing with JSON.parse there. -/
def parsePassOnly : String → Option Json :=
  fun s => if s = contentPassOnly then some objPassOnly else none

/-- Eleven non-blank rule strings, one more than the cap. -/
def elevenRules : List Json :=
  [Json.str "ruleA", Json.str "ruleB", Json.str "ruleC", Json.str "ruleD",
   Json.str "ruleE", Json.str "ruleF", Json.str "ruleG", Json.str "ruleH",
   Json.str "ruleI", Json.str "ruleJ", Json.str "ruleK"]

/-! ## Helper lemmas -/

/-- Data of a concatenation is the concatenation of the data. -/
theorem strDataAppend (s t : String) : (s ++ t).data = s.data ++ t.data := by
  cases s; cases t; rfl

/-- A concatenation whose left part is non-empty is non-empty. -/
theorem strAppend_ne_empty (s t : String) (h : s ≠ "") : s ++ t ≠ "" := by
  intro heq
  apply h
  have hd : s.data ++ t.data = [] := by
    have hc := congrArg String.data heq
    rwa [strDataAppend] at hc
  have hs : s.data = [] := (List.append_eq_nil.mp hd).1
  cases s with
  | mk data => cases hs; rfl

/-- The heuristic status is pass or fail. -/
theorem fallbackStatus_cases (r d : String) :
    fallbackStatus r d = "pass" ∨ fallbackStatus r d = "fail" := by
  unfold fallbackStatus
  split
  · exact Or.inl rfl
  · exact Or.inr rfl

/-- The heuristic evidence string is never empty. -/
theorem fallbackEvidence_ne_empty (r d : String) : fallbackEvidence r d ≠ "" := by
  cases h : evidenceSentence r d with
  | none =>
    have he : fallbackEvidence r d = "No direct evidence found." := by
      simp [fallbackEvidence, h]
    rw [he]; decide
  | some s =>
    by_cases hs : s = ""
    · have he : fallbackEvidence r d = "No direct evidence found." := by
        simp [fallbackEvidence, h, hs]
      rw [he]; decide
    · have he : fallbackEvidence r d = s := by
        simp [fallbackEvidence, h, hs]
      rw [he]; exact hs

/-- The heuristic reasoning string is never empty. -/
theorem fallbackReasoning_ne_empty (r d : String) : fallbackReasoning r d ≠ "" := by
  unfold fallbackReasoning
  split
  · exact strAppend_ne_empty _ _ (strAppend_ne_empty _ _ (by decide))
  · decide

/-- The clamped confidence lies between 0 and 100. -/
theorem clampConfidence_bounds (x : JNum) :
    0 ≤ clampConfidence x ∧ clampConfidence x ≤ 100 := by
  unfold clampConfidence
  omega

/-- The mapped confidence lies between 0 and 100 when the default does. -/
theorem normConfidence_bounds (v : Option Json) (d : ℤ) (h0 : 0 ≤ d) (h1 : d ≤ 100) :
    0 ≤ normConfidence v d ∧ normConfidence v d ≤ 100 := by
  unfold normConfidence
  rcases v with _ | x
  · exact ⟨h0, h1⟩
  · cases x with
    | num y => exact clampConfidence_bounds y
    | null => exact ⟨h0, h1⟩
    | bool b => exact ⟨h0, h1⟩
    | str s => exact ⟨h0, h1⟩
    | arr l => exact ⟨h0, h1⟩
    | obj f => exact ⟨h0, h1⟩

/-- Well-formedness of the heuristic verdict. -/
theorem buildFallbackResult_wf (r d : String) :
    (buildFallbackResult r d).rule = jsTrimStr r ∧
    ((buildFallbackResult r d).status = "pass" ∨ (buildFallbackResult r d).status = "fail") ∧
    jsTruthy (buildFallbackResult r d).evidence = true ∧
    jsTruthy (buildFallbackResult r d).reasoning = true ∧
    0 ≤ (buildFallbackResult r d).confidence ∧
    (buildFallbackResult r d).confidence ≤ 100 ∧
    (buildFallbackResult r d).source = "heuristic" := by
  refine ⟨rfl, fallbackStatus_cases r d, ?_, ?_, ?_, ?_, rfl⟩
  · show jsTruthy (Json.str (fallbackEvidence r d)) = true
    simp [jsTruthy, fallbackEvidence_ne_empty r d]
  · show jsTruthy (Json.str (fallbackReasoning r d)) = true
    simp [jsTruthy, fallbackReasoning_ne_empty r d]
  · show 0 ≤ (if fallbackStatus r d = "pass" then (55 : ℤ) else 35)
    split <;> norm_num
  · show (if fallbackStatus r d = "pass" then (55 : ℤ) else 35) ≤ 100
    split <;> norm_num

/-- Case analysis of the normalizer: either it returns the fallback, or
the slice parsed, the status chain evaluated, and the result is the
normalized record. -/
theorem parseLLMJson_spec (p : String → Option Json) (c : String) (fb : Verdict) (src : String) :
    parseLLMJson p c fb src = fb ∨
    ∃ slice parsed stOpt, jsonSlice c = some slice ∧ p slice = some parsed ∧
      statusAccess parsed = .ok stOpt ∧
      parseLLMJson p c fb src = normalizeParsed parsed fb src stOpt := by
  rcases h1 : jsonSlice c with _ | slice
  · left; simp [parseLLMJson, h1]
  · rcases h2 : p slice with _ | parsed
    · left; simp [parseLLMJson, h1, h2]
    · rcases h3 : statusAccess parsed with e | stOpt
      · left; simp [parseLLMJson, h1, h2, h3]
      · right
        exact ⟨slice, parsed, stOpt, rfl, h2, h3, by simp [parseLLMJson, h1, h2, h3]⟩

/-- Reduction of the normalizer along a successful path. -/
theorem parseLLMJson_eq_normalize (p : String → Option Json) (c slice : String)
    (parsed : Json) (fb : Verdict) (src : String) (stOpt : Option String)
    (h1 : jsonSlice c = some slice) (h2 : p slice = some parsed)
    (h3 : statusAccess parsed = .ok stOpt) :
    parseLLMJson p c fb src = normalizeParsed parsed fb src stOpt := by
  simp [parseLLMJson, h1, h2, h3]

/-- The normalizer always echoes the rule of the fallback. -/
theorem parseLLMJson_rule (p : String → Option Json) (c : String) (fb : Verdict) (src : String) :
    (parseLLMJson p c fb src).rule = fb.rule := by
  rcases parseLLMJson_spec p c fb src with h | ⟨slice, parsed, stOpt, _, _, _, h⟩
  · rw [h]
  · rw [h]; rfl

/-- Truthiness of the kept-or-default mapping, given a truthy default. -/
theorem jsOr_truthy (v : Option Json) (d : Json) (hd : jsTruthy d = true) :
    jsTruthy (jsOr v d) = true := by
  rcases v with _ | x
  · simp only [jsOr]; exact hd
  · simp only [jsOr]
    by_cases hx : jsTruthy x = true
    · rw [if_pos hx]; exact hx
    · rw [if_neg hx]; exact hd

/-- Field-level well-formedness of the normalizer output, given the
corresponding properties of the fallback. -/
theorem parseLLMJson_wf (p : String → Option Json) (c : String) (fb : Verdict) (src : String)
    (hst : fb.status = "pass" ∨ fb.status = "fail")
    (hev : jsTruthy fb.evidence = true)
    (hre : jsTruthy fb.reasoning = true)
    (hc0 : 0 ≤ fb.confidence) (hc1 : fb.confidence ≤ 100) :
    ((parseLLMJson p c fb src).status = "pass" ∨ (parseLLMJson p c fb src).status = "fail") ∧
    jsTruthy (parseLLMJson p c fb src).evidence = true ∧
    jsTruthy (parseLLMJson p c fb src).reasoning = true ∧
    0 ≤ (parseLLMJson p c fb src).confidence ∧
    (parseLLMJson p c fb src).confidence ≤ 100 ∧
    ((parseLLMJson p c fb src).source = fb.source ∨ (parseLLMJson p c fb src).source = src) := by
  rcases parseLLMJson_spec p c fb src with h | ⟨slice, parsed, stOpt, _, _, _, h⟩
  · rw [h]; exact ⟨hst, hev, hre, hc0, hc1, Or.inl rfl⟩
  · rw [h]
    refine ⟨?_, ?_, ?_, ?_, ?_, Or.inr rfl⟩
    · show (if stOpt = some "pass" then "pass" else "fail") = "pass" ∨
        (if stOpt = some "pass" then "pass" else "fail") = "fail"
      split
      · exact Or.inl rfl
      · exact Or.inr rfl
    · exact jsOr_truthy _ _ hev
    · exact jsOr_truthy _ _ hre
    · exact (normConfidence_bounds _ _ hc0 hc1).1
    · exact (normConfidence_bounds _ _ hc0 hc1).2

/-- A thrown or empty backend call yields the fallback. -/
theorem callBranch_fallback (p : String → Option Json) (outcome : Except Unit String)
    (fb : Verdict) (src : String)
    (h : outcome = .error () ∨ outcome = .ok "") :
    callBranch p outcome fb src = fb := by
  rcases h with h | h <;> subst h <;> rfl

/-- A non-empty successful payload reaches the normalizer. -/
theorem callBranch_ok (p : String → Option Json) (content : String)
    (fb : Verdict) (src : String) (hc : content ≠ "") :
    callBranch p (.ok content) fb src = parseLLMJson p content fb src := by
  unfold callBranch
  simp [hc]

/-- Shape of the orchestrator result: either the heuristic fallback, or
the normalizer applied to some payload with one of the three backend
tags. -/
theorem evaluateRuleWithLLM_shape (cfg : Config) (parse : String → Option Json)
    (outcome : Except Unit String) (rule doc : String) (provider : Option String) :
    evaluateRuleWithLLM cfg parse outcome rule doc provider = buildFallbackResult rule doc ∨
    ∃ content src, (src = "openai" ∨ src = "mistral" ∨ src = "groq") ∧
      evaluateRuleWithLLM cfg parse outcome rule doc provider =
        parseLLMJson parse content (buildFallbackResult rule doc) src := by
  unfold evaluateRuleWithLLM
  split_ifs with h1 h2 h3 h4
  · exact Or.inl rfl
  · cases outcome with
    | error e => exact Or.inl (callBranch_fallback _ _ _ _ (Or.inl rfl))
    | ok content =>
      by_cases hc : content = ""
      · subst hc; exact Or.inl (callBranch_fallback _ _ _ _ (Or.inr rfl))
      · exact Or.inr ⟨content, "openai", Or.inl rfl, callBranch_ok _ _ _ _ hc⟩
  · cases outcome with
    | error e => exact Or.inl (callBranch_fallback _ _ _ _ (Or.inl rfl))
    | ok content =>
      by_cases hc : content = ""
      · subst hc; exact Or.inl (callBranch_fallback _ _ _ _ (Or.inr rfl))
      · exact Or.inr ⟨content, "mistral", Or.inr (Or.inl rfl), callBranch_ok _ _ _ _ hc⟩
  · cases outcome with
    | error e => exact Or.inl (callBranch_fallback _ _ _ _ (Or.inl rfl))
    | ok content =>
      by_cases hc : content = ""
      · subst hc; exact Or.inl (callBranch_fallback _ _ _ _ (Or.inr rfl))
      · exact Or.inr ⟨content, "groq", Or.inr (Or.inr rfl), callBranch_ok _ _ _ _ hc⟩
  · exact Or.inl rfl

/-- Every orchestrator result echoes the trimmed rule. -/
theorem evaluateRuleWithLLM_rule (cfg : Config) (parse : String → Option Json)
    (outcome : Except Unit String) (rule doc : String) (provider : Option String) :
    (evaluateRuleWithLLM cfg parse outcome rule doc provider).rule = jsTrimStr rule := by
  rcases evaluateRuleWithLLM_shape cfg parse outcome rule doc provider with h | ⟨c, s, _, h⟩
  · rw [h]; rfl
  · rw [h, parseLLMJson_rule]; rfl

/-! ## Claim C1 -/

/-- C1: evaluateRuleWithLLM is total (a Lean function) and returns a
verdict for every rule, document and requested backend; whenever the
backend call fails (thrown or empty payload) or no backend client is
configured, the result is the heuristic fallback verdict, whose source
is heuristic, and a batch of N rules always yields N verdicts. -/
theorem c1_orchestrator_total_fallback
    (cfg : Config) (parse : String → Option Json) (outcome : Except Unit String)
    (rule documentText : String) (provider : Option String)
    (h : outcome = .error () ∨ outcome = .ok "" ∨
      (cfg.openai = false ∧ cfg.mistral = false ∧ cfg.groq = false)) :
    evaluateRuleWithLLM cfg parse outcome rule documentText provider =
      buildFallbackResult rule documentText ∧
    (evaluateRuleWithLLM cfg parse outcome rule documentText provider).source = "heuristic" ∧
    ∀ (rules : List String) (eff : String),
      (evaluateAll cfg parse (fun _ => outcome) rules documentText eff).length = rules.length := by
  have hmain : evaluateRuleWithLLM cfg parse outcome rule documentText provider =
      buildFallbackResult rule documentText := by
    rcases h with h | h | h
    · subst h
      unfold evaluateRuleWithLLM
      split_ifs <;> rfl
    · subst h
      unfold evaluateRuleWithLLM
      split_ifs <;> rfl
    · unfold evaluateRuleWithLLM
      rw [if_pos (Or.inr h)]
  refine ⟨hmain, ?_, ?_⟩
  · rw [hmain]; rfl
  · intro rules eff
    simp [evaluateAll]

/-- Witness for C1: with the openai client configured but the call
throwing, the orchestrator returns the heuristic fallback and batches
keep their length. -/
theorem c1_witness :
    ((.error () : Except Unit String) = .error () ∨
      (.error () : Except Unit String) = .ok "" ∨
      (cfgOpenaiOnly.openai = false ∧ cfgOpenaiOnly.mistral = false ∧
        cfgOpenaiOnly.groq = false)) ∧
    (evaluateRuleWithLLM cfgOpenaiOnly parseNone (.error ()) " Budget rule " "budget doc"
        (some "openai") = buildFallbackResult " Budget rule " "budget doc" ∧
      (evaluateRuleWithLLM cfgOpenaiOnly parseNone (.error ()) " Budget rule " "budget doc"
        (some "openai")).source = "heuristic" ∧
      ∀ (rules : List String) (eff : String),
        (evaluateAll cfgOpenaiOnly parseNone (fun _ => .error ()) rules "budget doc" eff).length =
          rules.length) :=
  ⟨Or.inl rfl,
    c1_orchestrator_total_fallback cfgOpenaiOnly parseNone (.error ()) " Budget rule "
      "budget doc" (some "openai") (Or.inl rfl)⟩

/-! ## Claim C2 -/

/-- C2 counterexample: a backend payload whose evidence member is the
number 5 flows through the normalizer unchanged, so the produced verdict
carries a numeric, non-string evidence field, refuting the claim that
evidence is always a non-empty string. -/
theorem c2_counterexample_nonstring_evidence :
    (evaluateRuleWithLLM cfgOpenaiOnly parseEvidence5 (.ok contentEvidence5)
      "budget" "budget" (some "openai")).evidence = Json.num ⟨5, 1⟩ ∧
    jsonIsStr (Json.num ⟨5, 1⟩) = false :=
  ⟨rfl, rfl⟩

/-- C2 (amended): every verdict produced by any path has the trimmed
input rule, a status that is pass or fail, truthy evidence and reasoning
(non-empty strings whenever they come from the heuristic fallback, but a
truthy backend-supplied JSON value of any type is passed through), an
integer confidence between 0 and 100, and a source that is heuristic or
one of the three backend names. -/
theorem c2_amended_verdict_wellformed (cfg : Config) (parse : String → Option Json)
    (outcome : Except Unit String) (rule doc : String) (provider : Option String) :
    (evaluateRuleWithLLM cfg parse outcome rule doc provider).rule = jsTrimStr rule ∧
    ((evaluateRuleWithLLM cfg parse outcome rule doc provider).status = "pass" ∨
      (evaluateRuleWithLLM cfg parse outcome rule doc provider).status = "fail") ∧
    jsTruthy (evaluateRuleWithLLM cfg parse outcome rule doc provider).evidence = true ∧
    jsTruthy (evaluateRuleWithLLM cfg parse outcome rule doc provider).reasoning = true ∧
    0 ≤ (evaluateRuleWithLLM cfg parse outcome rule doc provider).confidence ∧
    (evaluateRuleWithLLM cfg parse outcome rule doc provider).confidence ≤ 100 ∧
    ((evaluateRuleWithLLM cfg parse outcome rule doc provider).source = "heuristic" ∨
      (evaluateRuleWithLLM cfg parse outcome rule doc provider).source = "openai" ∨
      (evaluateRuleWithLLM cfg parse outcome rule doc provider).source = "mistral" ∨
      (evaluateRuleWithLLM cfg parse outcome rule doc provider).source = "groq") := by
  obtain ⟨-, hst, hev, hre, hc0, hc1, hsrc⟩ := buildFallbackResult_wf rule doc
  rcases evaluateRuleWithLLM_shape cfg parse outcome rule doc provider with h | ⟨c, s, hs, h⟩
  · rw [h]
    exact ⟨rfl, hst, hev, hre, hc0, hc1, Or.inl hsrc⟩
  · rw [h]
    obtain ⟨pst, pev, pre, pc0, pc1, psrc⟩ :=
      parseLLMJson_wf parse c (buildFallbackResult rule doc) s hst hev hre hc0 hc1
    refine ⟨(parseLLMJson_rule parse c _ s).trans rfl, pst, pev, pre, pc0, pc1, ?_⟩
    rcases psrc with hq | hq
    · exact Or.inl (hq.trans hsrc)
    · rcases hs with rfl | rfl | rfl
      · exact Or.inr (Or.inl hq)
      · exact Or.inr (Or.inr (Or.inl hq))
      · exact Or.inr (Or.inr (Or.inr hq))

/-! ## Claim C3 -/

/-- Reduction of statusAccess to statusOfMember on a successful chain. -/
theorem statusAccess_ok_imp (parsed : Json) (stOpt : Option String)
    (h : statusAccess parsed = .ok stOpt) :
    statusOfMember (jget parsed "status") = .ok stOpt := by
  cases parsed with
  | null => exact absurd h (by simp [statusAccess])
  | bool b => exact h
  | num x => exact h
  | str s => exact h
  | arr l => exact h
  | obj f => exact h

/-- Characterization of the lowercased status member: it equals pass
exactly when the member is a string whose lowercasing is pass. -/
theorem statusOfMember_ok_iff (v : Option Json) (stOpt : Option String)
    (h : statusOfMember v = .ok stOpt) :
    (stOpt = some "pass" ↔ ∃ s, v = some (Json.str s) ∧ strLower s = "pass") := by
  rcases v with _ | x
  · have hs : stOpt = none := by
      simpa [statusOfMember] using h.symm
    subst hs
    simp
  · cases x with
    | null =>
      have hs : stOpt = none := by
        simpa [statusOfMember] using h.symm
      subst hs
      simp
    | str s =>
      have hs : stOpt = some (strLower s) := by
        simpa [statusOfMember] using h.symm
      subst hs
      constructor
      · intro hp
        exact ⟨s, rfl, by simpa using hp⟩
      · rintro ⟨s2, hs2, hl⟩
        have : s2 = s := by
          cases hs2
          rfl
        subst this
        simpa using hl
    | bool b => exact absurd h (by simp [statusOfMember])
    | num y => exact absurd h (by simp [statusOfMember])
    | arr l => exact absurd h (by simp [statusOfMember])
    | obj f => exact absurd h (by simp [statusOfMember])

/-- Math.round on an exact fraction with positive denominator is the
floor of the value plus one half. -/
theorem jsRound_eq_floor (x : JNum) (hd : 0 < x.den) :
    jsRound x = ⌊x.toRat + 1/2⌋ := by
  have hden : (x.den : ℚ) ≠ 0 := Nat.cast_ne_zero.mpr hd.ne'
  have h1 : x.toRat + 1/2 = ((2 * x.num + (x.den : ℤ) : ℤ) : ℚ) / (((2 * x.den : ℕ) : ℕ) : ℚ) := by
    unfold JNum.toRat
    push_cast
    field_simp
    ring
  rw [h1, Rat.floor_intCast_div_natCast]
  unfold jsRound
  norm_cast

/-- C3 (amended): after a JSON object is successfully extracted and the
status member is absent, null, or a string, the normalizer maps fields
per-field: status is pass exactly when the parsed status value
case-insensitively equals pass and fail in every other such case;
evidence and reasoning keep the parsed values when present and truthy,
else the fallback fields; confidence is the parsed numeric value rounded
half-up and clamped to the interval from 0 to 100 when it is a number,
else the fallback confidence. When the status member is present but
neither a string nor null, the member chain throws and the whole
fallback verdict is returned instead (see the counterexample). -/
theorem c3_amended_normalizer_field_mapping
    (parse : String → Option Json) (content slice : String) (parsed : Json)
    (fb : Verdict) (src : String) (stOpt : Option String)
    (hslice : jsonSlice content = some slice)
    (hparse : parse slice = some parsed)
    (hstatus : statusAccess parsed = .ok stOpt) :
    ((parseLLMJson parse content fb src).status = "pass" ↔
      ∃ s, jget parsed "status" = some (Json.str s) ∧ strLower s = "pass") ∧
    ((parseLLMJson parse content fb src).status = "pass" ∨
      (parseLLMJson parse content fb src).status = "fail") ∧
    (parseLLMJson parse content fb src).evidence = jsOr (jget parsed "evidence") fb.evidence ∧
    (parseLLMJson parse content fb src).reasoning = jsOr (jget parsed "reasoning") fb.reasoning ∧
    (∀ x : JNum, jget parsed "confidence" = some (Json.num x) → 0 < x.den →
      (parseLLMJson parse content fb src).confidence = min 100 (max 0 ⌊x.toRat + 1/2⌋)) ∧
    ((∀ x : JNum, jget parsed "confidence" ≠ some (Json.num x)) →
      (parseLLMJson parse content fb src).confidence = fb.confidence) := by
  have heq := parseLLMJson_eq_normalize parse content slice parsed fb src stOpt hslice hparse hstatus
  have hiff := statusOfMember_ok_iff _ _ (statusAccess_ok_imp parsed stOpt hstatus)
  rw [heq]
  refine ⟨?_, ?_, rfl, rfl, ?_, ?_⟩
  · show (if stOpt = some "pass" then "pass" else "fail") = "pass" ↔ _
    constructor
    · intro hps
      by_cases hc : stOpt = some "pass"
      · exact hiff.mp hc
      · rw [if_neg hc] at hps
        exact absurd hps (by decide)
    · intro hex
      rw [if_pos (hiff.mpr hex)]
  · show (if stOpt = some "pass" then "pass" else "fail") = "pass" ∨
      (if stOpt = some "pass" then "pass" else "fail") = "fail"
    split
    · exact Or.inl rfl
    · exact Or.inr rfl
  · intro x hx hxd
    show normConfidence (jget parsed "confidence") fb.confidence = _
    rw [hx]
    show clampConfidence x = min 100 (max 0 ⌊x.toRat + 1/2⌋)
    unfold clampConfidence
    rw [jsRound_eq_floor x hxd]
  · intro hnx
    show normConfidence (jget parsed "confidence") fb.confidence = fb.confidence
    rcases hv : jget parsed "confidence" with _ | x
    · simp [normConfidence]
    · cases x with
      | num y => exact absurd hv (hnx y)
      | null => simp [normConfidence]
      | bool b => simp [normConfidence]
      | str s => simp [normConfidence]
      | arr l => simp [normConfidence]
      | obj f => simp [normConfidence]

/-- C3 counterexample: the payload carries a successfully extracted JSON
object whose status member is the number 5 (not the string pass), yet
the normalized status is pass, inherited from the fallback verdict: the
member chain throws on the numeric status and the catch returns the
whole fallback. This refutes the claim that status is fail in every case
where the parsed status does not equal pass. -/
theorem c3_counterexample_nonstring_status :
    jsonSlice contentStatus5 = some contentStatus5 ∧
    parseStatus5 contentStatus5 = some objStatus5 ∧
    jget objStatus5 "status" = some (Json.num ⟨5, 1⟩) ∧
    jsonIsStr (Json.num ⟨5, 1⟩) = false ∧
    (buildFallbackResult "budget" "budget").status = "pass" ∧
    (parseLLMJson parseStatus5 contentStatus5 (buildFallbackResult "budget" "budget")
      "openai").status = "pass" := by
  refine ⟨by decide, rfl, rfl, rfl, by decide, by decide⟩

/-- Witness for C3: an uppercase PASS status lowercases to pass and a
confidence of 132.7 rounds and clamps to 100. -/
theorem c3_witness :
    jsonSlice contentPassConf = some contentPassConf ∧
    parsePassConf contentPassConf = some objPassConf ∧
    statusAccess objPassConf = .ok (some "pass") ∧
    (parseLLMJson parsePassConf contentPassConf
      (buildFallbackResult "budget" "no match here") "openai").status = "pass" ∧
    (parseLLMJson parsePassConf contentPassConf
      (buildFallbackResult "budget" "no match here") "openai").confidence = 100 := by
  have h := c3_amended_normalizer_field_mapping parsePassConf contentPassConf contentPassConf
    objPassConf (buildFallbackResult "budget" "no match here") "openai" (some "pass")
    (by decide) rfl rfl
  refine ⟨by decide, rfl, rfl, ?_, ?_⟩
  · exact h.1.mpr ⟨"PASS", rfl, by decide⟩
  · have hc := h.2.2.2.2.1 ⟨1327, 10⟩ rfl (by decide)
    rw [hc]
    have hfl : ⌊(JNum.toRat ⟨1327, 10⟩) + 1/2⌋ = (133 : ℤ) := by
      rw [Int.floor_eq_iff]
      constructor <;> norm_num [JNum.toRat]
    rw [hfl]
    decide

/-! ## Claim C4 -/

/-- A character absent from the list has no first index. -/
theorem firstIdxOf_eq_none (cs : List Char) (c : Char) (h : c ∉ cs) :
    firstIdxOf cs c = none := by
  unfold firstIdxOf
  rw [List.findIdx?_eq_none_iff]
  intro x hx
  exact beq_eq_false_iff_ne.mpr (fun hxc => h (hxc ▸ hx))

/-- A character absent from the list has no last index. -/
theorem lastIdxOf_eq_none (cs : List Char) (c : Char) (h : c ∉ cs) :
    lastIdxOf cs c = none := by
  unfold lastIdxOf
  have h2 : c ∉ cs.reverse := by simpa using h
  rw [List.findIdx?_eq_none_iff.mpr
    (fun x hx => beq_eq_false_iff_ne.mpr (fun hxc : x = c => h2 (hxc ▸ hx)))]
  rfl

/-- A raw text missing an opening or closing brace has no slice. -/
theorem jsonSlice_eq_none (content : String)
    (h : '\x7b' ∉ content.data ∨ '\x7d' ∉ content.data) :
    jsonSlice content = none := by
  rcases h with h | h
  · rcases hl : lastIdxOf content.data '\x7d' with _ | e <;>
      simp [jsonSlice, firstIdxOf_eq_none _ _ h, hl]
  · rcases hf : firstIdxOf content.data '\x7b' with _ | s <;>
      simp [jsonSlice, lastIdxOf_eq_none _ _ h, hf]

/-- C4: whenever the raw backend text lacks an opening or a closing
brace, and whenever the brace-delimited slice fails to parse as JSON,
the normalizer returns the fallback verdict unchanged, field for
field. -/
theorem c4_normalizer_fallback_on_unparseable (parse : String → Option Json)
    (content : String) (fb : Verdict) (src : String) :
    (('\x7b' ∉ content.data ∨ '\x7d' ∉ content.data) →
      parseLLMJson parse content fb src = fb) ∧
    (∀ slice, jsonSlice content = some slice → parse slice = none →
      parseLLMJson parse content fb src = fb) := by
  constructor
  · intro h
    simp [parseLLMJson, jsonSlice_eq_none content h]
  · intro slice h1 h2
    simp [parseLLMJson, h1, h2]

/-- Witness for C4: a braceless payload and a payload whose slice fails
to parse both yield the fallback unchanged. -/
theorem c4_witness :
    ('\x7b' ∉ ("no braces here" : String).data ∨
      '\x7d' ∉ ("no braces here" : String).data) ∧
    parseLLMJson parseNone "no braces here" (buildFallbackResult "budget" "budget")
      "openai" = buildFallbackResult "budget" "budget" ∧
    jsonSlice "x\x7boops\x7dy" = some "\x7boops\x7d" ∧
    parseNone "\x7boops\x7d" = none ∧
    parseLLMJson parseNone "x\x7boops\x7dy" (buildFallbackResult "budget" "budget")
      "openai" = buildFallbackResult "budget" "budget" := by
  refine ⟨Or.inl (by decide), ?_, by decide, rfl, ?_⟩
  · exact (c4_normalizer_fallback_on_unparseable parseNone "no braces here"
      (buildFallbackResult "budget" "budget") "openai").1 (Or.inl (by decide))
  · exact (c4_normalizer_fallback_on_unparseable parseNone "x\x7boops\x7dy"
      (buildFallbackResult "budget" "budget") "openai").2 "\x7boops\x7d" (by decide) rfl

/-! ## Claim C5 -/

/-- The keyword list is capped at 6. -/
theorem ruleKeywords_length_le (rule : String) : (ruleKeywords rule).length ≤ 6 := by
  unfold ruleKeywords
  exact List.length_take_le 6 _

/-- On every reachable keyword count the natural-number threshold equals
the ceiling of two fifths in rational arithmetic. -/
theorem ceilTwoFifths_eq_ceil (k : ℕ) (hk : k ≤ 6) :
    (ceilTwoFifths k : ℤ) = ⌈(0.4 : ℚ) * k⌉ := by
  interval_cases k <;>
    · rw [eq_comm, Int.ceil_eq_iff]
      norm_num [ceilTwoFifths]

/-- C5: the heuristic evaluator passes exactly when the number of
keywords found in the lowercased document reaches max 1 (ceiling of 0.4
times the keyword count), where keywords are the lowercase alphanumeric
words of the rule longer than 4 characters capped at 6; a rule with no
extractable keyword always fails; confidence is 55 on pass and 35 on
fail. -/
theorem c5_heuristic_evaluator (rule documentText : String) :
    ((buildFallbackResult rule documentText).status = "pass" ↔
      max 1 (Int.toNat ⌈(0.4 : ℚ) * (ruleKeywords rule).length⌉) ≤
        (keywordMatches rule documentText).length) ∧
    (ruleKeywords rule = [] → (buildFallbackResult rule documentText).status = "fail") ∧
    ((buildFallbackResult rule documentText).status = "pass" →
      (buildFallbackResult rule documentText).confidence = 55) ∧
    ((buildFallbackResult rule documentText).status = "fail" →
      (buildFallbackResult rule documentText).confidence = 35) := by
  have hle : (ruleKeywords rule).length ≤ 6 := ruleKeywords_length_le rule
  have hthr : fallbackThreshold rule =
      max 1 (Int.toNat ⌈(0.4 : ℚ) * (ruleKeywords rule).length⌉) := by
    unfold fallbackThreshold
    congr 1
    rw [← ceilTwoFifths_eq_ceil _ hle, Int.toNat_natCast]
  refine ⟨?_, ?_, ?_, ?_⟩
  · show fallbackStatus rule documentText = "pass" ↔ _
    rw [← hthr]
    constructor
    · intro h
      by_cases hc : fallbackThreshold rule ≤ (keywordMatches rule documentText).length
      · exact hc
      · have hf : fallbackStatus rule documentText = "fail" := by
          unfold fallbackStatus
          rw [if_neg hc]
        rw [hf] at h
        exact absurd h (by decide)
    · intro h
      unfold fallbackStatus
      rw [if_pos h]
  · intro hkw
    have hm : keywordMatches rule documentText = [] := by
      unfold keywordMatches
      rw [hkw]
      rfl
    have hth : fallbackThreshold rule = 1 := by
      unfold fallbackThreshold
      rw [hkw]
      rfl
    show fallbackStatus rule documentText = "fail"
    unfold fallbackStatus
    rw [hth, hm]
    decide
  · intro h
    show (if fallbackStatus rule documentText = "pass" then (55 : ℤ) else 35) = 55
    exact if_pos h
  · intro h
    have hn : ¬ fallbackStatus rule documentText = "pass" := by
      have hf : fallbackStatus rule documentText = "fail" := h
      rw [hf]
      decide
    show (if fallbackStatus rule documentText = "pass" then (55 : ℤ) else 35) = 35
    exact if_neg hn

/-- Witness for C5: a rule with only short words has no keywords and
fails with confidence 35. -/
theorem c5_witness :
    ruleKeywords "ab cd" = [] ∧
    (buildFallbackResult "ab cd" "some document").status = "fail" ∧
    (buildFallbackResult "ab cd" "some document").confidence = 35 := by
  have h := c5_heuristic_evaluator "ab cd" "some document"
  refine ⟨by decide, h.2.1 (by decide), h.2.2.2 (h.2.1 (by decide))⟩

/-! ## Claim C6 -/

/-- C6: the batch coordinator returns exactly one verdict per rule, and
the verdict at every index echoes (trimmed) the rule at the same index
of the input list; Promise.all keeps the order of the mapped array, so
the embedding is a map and order preservation holds by construction. -/
theorem c6_batch_order_preserved (cfg : Config) (parse : String → Option Json)
    (outcome : String → Except Unit String) (rules : List String)
    (documentText effective : String) :
    (evaluateAll cfg parse outcome rules documentText effective).length = rules.length ∧
    ∀ (i : ℕ) (h1 : i < (evaluateAll cfg parse outcome rules documentText effective).length)
      (h2 : i < rules.length),
      ((evaluateAll cfg parse outcome rules documentText effective).get ⟨i, h1⟩).rule =
        jsTrimStr (rules.get ⟨i, h2⟩) := by
  refine ⟨by simp [evaluateAll], ?_⟩
  intro i h1 h2
  have hg : (evaluateAll cfg parse outcome rules documentText effective).get ⟨i, h1⟩ =
      evaluateRuleWithLLM cfg parse (outcome (rules.get ⟨i, h2⟩)) (rules.get ⟨i, h2⟩)
        documentText (some effective) := by
    simp [evaluateAll, List.get_eq_getElem, List.getElem_map]
  rw [hg, evaluateRuleWithLLM_rule]

/-- Witness for C6: a two-rule batch keeps length two and its second
verdict echoes the trimmed second rule. -/
theorem c6_witness :
    (evaluateAll cfgHeuristicOnly parseNone outcomeThrow ["R1", " R2"] "doc text"
      "heuristic").length = 2 ∧
    ((evaluateAll cfgHeuristicOnly parseNone outcomeThrow ["R1", " R2"] "doc text"
      "heuristic").get ⟨1, by decide⟩).rule = jsTrimStr " R2" := by
  have h := c6_batch_order_preserved cfgHeuristicOnly parseNone outcomeThrow ["R1", " R2"]
    "doc text" "heuristic"
  exact ⟨h.1, h.2 1 (by decide) (by decide)⟩

/-! ## Claim C7 -/

/-- C7 counterexample: with only the openai client configured (openai
also the process default), requesting mistral keeps mistral as the
effective provider even though mistral has no credential, while the
selection the specification describes would fall back to the default
openai; the evaluation then degrades to the heuristic instead of using
the default backend (an identical request naming openai reaches the
normalizer and is tagged openai). -/
theorem c7_counterexample_unconfigured_selector :
    effectiveProvider cfgOpenaiOnly (some "mistral") = "mistral" ∧
    specEffectiveProvider cfgOpenaiOnly (some "mistral") = "openai" ∧
    configuredProvider cfgOpenaiOnly "mistral" = false ∧
    ("mistral" : String) ≠ "openai" ∧
    (evaluateRuleWithLLM cfgOpenaiOnly parsePassOnly (.ok contentPassOnly) "budget" "budget"
      (some "mistral")).source = "heuristic" ∧
    (evaluateRuleWithLLM cfgOpenaiOnly parsePassOnly (.ok contentPassOnly) "budget" "budget"
      (some "openai")).source = "openai" := by
  refine ⟨by decide, by decide, rfl, by decide, rfl, rfl⟩

/-- C7 (amended): the effective backend is the requested backend
whenever it is a valid selector, whether or not that backend is
configured; any other value or omission resolves to the process default;
and when the effective backend is heuristic, or no backend client is
configured at all, the rule is evaluated directly by the heuristic
evaluator. -/
theorem c7_amended_backend_selection (cfg : Config) (rawProvider : Option String)
    (parse : String → Option Json) (outcome : Except Unit String) (rule doc : String) :
    (∀ s, rawProvider = some s → jsTrimStr (strLower s) ≠ "" →
      allowedProvider (jsTrimStr (strLower s)) = true →
      effectiveProvider cfg rawProvider = jsTrimStr (strLower s)) ∧
    (∀ s, rawProvider = some s →
      (jsTrimStr (strLower s) = "" ∨ allowedProvider (jsTrimStr (strLower s)) = false) →
      effectiveProvider cfg rawProvider = cfg.activeProvider) ∧
    (rawProvider = none → effectiveProvider cfg rawProvider = cfg.activeProvider) ∧
    ((effectiveProvider cfg rawProvider = "heuristic" ∨
        (cfg.openai = false ∧ cfg.mistral = false ∧ cfg.groq = false)) →
      evaluateRuleWithLLM cfg parse outcome rule doc
        (some (effectiveProvider cfg rawProvider)) = buildFallbackResult rule doc) := by
  refine ⟨?_, ?_, ?_, ?_⟩
  · intro s hs hne hall
    subst hs
    show (if jsTrimStr (strLower s) ≠ "" ∧ allowedProvider (jsTrimStr (strLower s)) = true
      then jsTrimStr (strLower s) else cfg.activeProvider) = jsTrimStr (strLower s)
    rw [if_pos ⟨hne, hall⟩]
  · intro s hs hd
    subst hs
    show (if jsTrimStr (strLower s) ≠ "" ∧ allowedProvider (jsTrimStr (strLower s)) = true
      then jsTrimStr (strLower s) else cfg.activeProvider) = cfg.activeProvider
    rcases hd with hd | hd
    · rw [if_neg]
      rintro ⟨hne, -⟩
      exact hne hd
    · rw [if_neg]
      rintro ⟨-, hall⟩
      rw [hd] at hall
      exact absurd hall (by decide)
  · intro h
    subst h
    rfl
  · intro h
    have hfb : ∀ q : Option String,
        (resolvedProvider cfg q = "heuristic" ∨
          (cfg.openai = false ∧ cfg.mistral = false ∧ cfg.groq = false)) →
        evaluateRuleWithLLM cfg parse outcome rule doc q = buildFallbackResult rule doc := by
      intro q hq
      unfold evaluateRuleWithLLM
      rw [if_pos hq]
    rcases h with h | h
    · apply hfb
      left
      have hne : ¬ (effectiveProvider cfg rawProvider = "") := by
        intro he
        rw [he] at h
        exact absurd h (by decide)
      show (if effectiveProvider cfg rawProvider = "" then cfg.activeProvider
        else effectiveProvider cfg rawProvider) = "heuristic"
      rw [if_neg hne]
      exact h
    · exact hfb _ (Or.inr h)

/-- Witness for C7: a valid selector with surrounding whitespace and
uppercase is kept after normalization, and a heuristic selection
evaluates heuristically. -/
theorem c7_witness :
    jsTrimStr (strLower "GROQ ") ≠ "" ∧
    allowedProvider (jsTrimStr (strLower "GROQ ")) = true ∧
    effectiveProvider cfgHeuristicOnly (some "GROQ ") = jsTrimStr (strLower "GROQ ") ∧
    evaluateRuleWithLLM cfgHeuristicOnly parseNone (.error ()) "budget" "budget"
      (some (effectiveProvider cfgHeuristicOnly (some "heuristic"))) =
      buildFallbackResult "budget" "budget" := by
  have h := c7_amended_backend_selection cfgHeuristicOnly (some "GROQ ") parseNone
    (.error ()) "budget" "budget"
  have h2 := c7_amended_backend_selection cfgHeuristicOnly (some "heuristic") parseNone
    (.error ()) "budget" "budget"
  exact ⟨by decide, by decide, h.1 "GROQ " rfl (by decide) (by decide),
    h2.2.2.2 (Or.inl (by decide))⟩

/-! ## Claim C8 -/

/-- Characters of the trimmed string come from the original. -/
theorem mem_jsTrimStr (s : String) (c : Char) (h : c ∈ (jsTrimStr s).data) : c ∈ s.data := by
  unfold jsTrimStr at h
  have h0 : c ∈ ((s.data.dropWhile jsWs).reverse.dropWhile jsWs) := by
    simpa using h
  have h1 : c ∈ (s.data.dropWhile jsWs).reverse := (List.dropWhile_sublist _).subset h0
  rw [List.mem_reverse] at h1
  exact (List.dropWhile_sublist _).subset h1

/-- Every whitespace character surviving the collapse is a space. -/
theorem collapseWsGo_ws_eq_space (l : List Char) :
    ∀ (b : Bool) (c : Char), c ∈ collapseWsGo b l → jsWs c = true → c = ' ' := by
  induction l with
  | nil =>
    intro b c h hws
    simp [collapseWsGo] at h
  | cons a rest ih =>
    intro b c h hws
    by_cases ha : jsWs a = true
    · cases b with
      | true =>
        simp only [collapseWsGo, ha, if_true] at h
        exact ih true c h hws
      | false =>
        simp only [collapseWsGo, ha, if_true, if_false] at h
        rcases List.mem_cons.mp h with hc | hc
        · exact hc
        · exact ih true c hc hws
    · simp only [collapseWsGo, ha, if_false] at h
      rcases List.mem_cons.mp h with hc | hc
      · rw [hc] at hws
        exact absurd hws (by simp [ha])
      · exact ih false c hc hws

/-- The cleaned text contains no NUL character. -/
theorem cleanedText_no_nul (raw : String) : '\x00' ∉ (cleanedText raw).data := by
  intro h
  have h2 : ('\x00') ∈ ((collapseWs raw).data.filter (fun c => c != '\x00')) :=
    mem_jsTrimStr _ _ h
  have h3 := List.of_mem_filter h2
  simp at h3

/-- Every whitespace character of the cleaned text is a space. -/
theorem cleanedText_ws_space (raw : String) (c : Char)
    (h : c ∈ (cleanedText raw).data) (hws : jsWs c = true) : c = ' ' := by
  have h2 : c ∈ ((collapseWs raw).data.filter (fun x => x != '\x00')) :=
    mem_jsTrimStr _ _ h
  have h3 : c ∈ (collapseWs raw).data := List.mem_of_mem_filter h2
  exact collapseWsGo_ws_eq_space raw.data false c h3 hws

/-- C8 (amended): the document text is the extracted text with
whitespace runs collapsed to single spaces, then NUL characters removed
(so adjacent spaces can reappear and other control characters survive,
see the counterexample), then trimmed, truncated to 12000 characters;
the result never exceeds 12000 characters, equals the cleaned text when
that is within the cap, contains no NUL, and every whitespace character
left in it is a plain space. -/
theorem c8_amended_document_text (raw : String) :
    (truncateText (cleanedText raw) 12000).length ≤ 12000 ∧
    ((cleanedText raw).length ≤ 12000 →
      truncateText (cleanedText raw) 12000 = cleanedText raw) ∧
    '\x00' ∉ (cleanedText raw).data ∧
    (∀ c ∈ (cleanedText raw).data, jsWs c = true → c = ' ') := by
  refine ⟨?_, ?_, cleanedText_no_nul raw, fun c hc hw => cleanedText_ws_space raw c hc hw⟩
  · unfold truncateText
    by_cases h : 12000 < (cleanedText raw).length
    · rw [if_pos h]
      show ((cleanedText raw).data.take 12000).length ≤ 12000
      simp [List.length_take]
    · rw [if_neg h]
      omega
  · intro h
    unfold truncateText
    rw [if_neg (by omega)]

/-- C8 counterexample: the control character 0x01 survives the cleaning,
and removing a NUL after the whitespace collapse leaves two adjacent
spaces, so the produced document text neither has all control characters
stripped nor all whitespace runs collapsed. -/
theorem c8_counterexample_cleaning_incomplete :
    cleanedText "a\x01b" = "a\x01b" ∧
    isControlChar '\x01' = true ∧
    '\x01' ∈ (truncateText (cleanedText "a\x01b") 12000).data ∧
    cleanedText "a \x00 b" = "a  b" ∧
    strIncludes (cleanedText "a \x00 b") "  " = true := by
  refine ⟨by decide, rfl, by decide, by decide, by decide⟩

/-- Witness for C8: a short text is its own truncation. -/
theorem c8_witness :
    (cleanedText "hello  world").length ≤ 12000 ∧
    truncateText (cleanedText "hello  world") 12000 = cleanedText "hello  world" ∧
    (truncateText (cleanedText "hello  world") 12000).length ≤ 12000 := by
  have h := c8_amended_document_text "hello  world"
  exact ⟨by decide, h.2.1 (by decide), h.1⟩

/-! ## Claim C9 -/

/-- C9 counterexample: a request carrying a non-text rule next to a
valid one is not rejected: the numeric entry is normalized away and the
remaining rule is evaluated, so the handler answers with verdicts. -/
theorem c9_counterexample_nontext_rule_not_rejected :
    isOkResult (checkHandler cfgHeuristicOnly parseNone outcomeThrow (some ())
      (some (RulesPayload.arr [Json.num ⟨42, 1⟩, Json.str "hello"])) none
      (.ok "hello world")) = true ∧
    jsonIsStr (Json.num ⟨42, 1⟩) = false ∧
    normalizeRules [Json.num ⟨42, 1⟩, Json.str "hello"] = ["hello"] := by
  refine ⟨rfl, rfl, by decide⟩

/-- C9 (amended): the handler rejects a request exactly when the file is
missing, the rules payload is missing or falsy, the rules payload is a
non-array value whose JSON.parse result is not an array (rules.map then
throws and the outer catch surfaces the generic server error), every
massaged rule entry is blank or non-text, or the document text is
unextractable (extraction threw or the cleaned text is empty); on every
accepted request each normalized rule receives a verdict and no error
inside rule evaluation can abort the batch (the orchestrator is
total). -/
theorem c9_amended_input_rejection (cfg : Config) (parse : String → Option Json)
    (outcome : String → Except Unit String) (file : Option Unit)
    (rawRules : Option RulesPayload) (rawProvider : Option String)
    (extraction : Except Unit String) :
    (isOkResult (checkHandler cfg parse outcome file rawRules rawProvider extraction) = false ↔
      (file = none ∨ rawRules = none ∨ massageFailed rawRules = true ∨
        normalizedOf rawRules = [] ∨ extraction = .error () ∨ docTextOf extraction = "")) ∧
    (∀ vs, checkHandler cfg parse outcome file rawRules rawProvider extraction = .ok vs →
      vs.length = (normalizedOf rawRules).length) := by
  rcases file with _ | f
  · simp [checkHandler, isOkResult]
  · rcases rawRules with _ | payload
    · simp [checkHandler, isOkResult, normalizedOf, massageFailed]
    · rcases hm : massageRules payload with e | rules
      · cases e
        simp [checkHandler, isOkResult, normalizedOf, massageFailed, hm]
      · by_cases hr : normalizeRules rules = []
        · simp [checkHandler, isOkResult, normalizedOf, massageFailed, hm, hr]
        · rcases extraction with e | raw
          · cases e
            simp [checkHandler, isOkResult, normalizedOf, massageFailed, hm, hr]
          · by_cases hd : truncateText (cleanedText raw) 12000 = ""
            · simp [checkHandler, isOkResult, normalizedOf, massageFailed, docTextOf,
                hm, hr, hd]
            · simp [checkHandler, isOkResult, normalizedOf, massageFailed, docTextOf,
                hm, hr, hd, evaluateAll]

/-- Witness for C9: a fileless request is rejected, a rules field whose
JSON.parse yields the number 42 is rejected before evaluation, and an
accepted single-rule request yields exactly one verdict. -/
theorem c9_witness :
    isOkResult (checkHandler cfgHeuristicOnly parseNone outcomeThrow none none none
      (.error ())) = false ∧
    isOkResult (checkHandler cfgHeuristicOnly parseNone outcomeThrow (some ())
      (some (RulesPayload.parsed (Json.num ⟨42, 1⟩))) none (.ok "hello world")) = false ∧
    ∀ vs, checkHandler cfgHeuristicOnly parseNone outcomeThrow (some ())
      (some (RulesPayload.arr [Json.str "hello"])) none (.ok "hello world") = .ok vs →
      vs.length = 1 := by
  have h1 := c9_amended_input_rejection cfgHeuristicOnly parseNone outcomeThrow none none
    none (.error ())
  have h2 := c9_amended_input_rejection cfgHeuristicOnly parseNone outcomeThrow (some ())
    (some (RulesPayload.parsed (Json.num ⟨42, 1⟩))) none (.ok "hello world")
  have h3 := c9_amended_input_rejection cfgHeuristicOnly parseNone outcomeThrow (some ())
    (some (RulesPayload.arr [Json.str "hello"])) none (.ok "hello world")
  refine ⟨h1.1.mpr (Or.inl rfl), h2.1.mpr (Or.inr (Or.inr (Or.inl rfl))), ?_⟩
  intro vs hvs
  rw [h3.2 vs hvs]
  decide

/-! ## Claim C10 -/

/-- C10: when more than 10 rules survive normalization, only the first
10 are evaluated and returned; the handler answers success with exactly
10 verdicts and gives no indication of the dropped excess. -/
theorem c10_rule_cap (cfg : Config) (parse : String → Option Json)
    (outcome : String → Except Unit String) (rules : List Json)
    (rawProvider : Option String) (raw : String)
    (h10 : 10 < ((rules.map jsRuleToStr).filter (fun r => r ≠ "")).length)
    (hdoc : truncateText (cleanedText raw) 12000 ≠ "") :
    normalizeRules rules = ((rules.map jsRuleToStr).filter (fun r => r ≠ "")).take 10 ∧
    (normalizeRules rules).length = 10 ∧
    checkHandler cfg parse outcome (some ()) (some (RulesPayload.arr rules)) rawProvider
      (.ok raw) =
      .ok (evaluateAll cfg parse outcome (normalizeRules rules)
        (truncateText (cleanedText raw) 12000) (effectiveProvider cfg rawProvider)) ∧
    ∀ vs, checkHandler cfg parse outcome (some ()) (some (RulesPayload.arr rules)) rawProvider
      (.ok raw) = .ok vs → vs.length = 10 := by
  have hlen : (normalizeRules rules).length = 10 := by
    unfold normalizeRules
    rw [List.length_take]
    omega
  have hne : normalizeRules rules ≠ [] := by
    intro h
    rw [h] at hlen
    simp at hlen
  have hh : checkHandler cfg parse outcome (some ()) (some (RulesPayload.arr rules))
      rawProvider (.ok raw) =
      .ok (evaluateAll cfg parse outcome (normalizeRules rules)
        (truncateText (cleanedText raw) 12000) (effectiveProvider cfg rawProvider)) := by
    show (if normalizeRules rules = [] then (.error .emptyRules : Except ReqError (List Verdict))
      else if truncateText (cleanedText raw) 12000 = "" then .error .noText
      else .ok (evaluateAll cfg parse outcome (normalizeRules rules)
        (truncateText (cleanedText raw) 12000) (effectiveProvider cfg rawProvider))) = _
    rw [if_neg hne, if_neg hdoc]
  refine ⟨rfl, hlen, hh, ?_⟩
  intro vs hvs
  rw [hh] at hvs
  have hv := (Except.ok.inj hvs).symm
  rw [hv]
  unfold evaluateAll
  rw [List.length_map]
  exact hlen

/-- Witness for C10: eleven valid rules are capped at ten. -/
theorem c10_witness :
    10 < ((elevenRules.map jsRuleToStr).filter (fun r => r ≠ "")).length ∧
    truncateText (cleanedText "hello world") 12000 ≠ "" ∧
    (normalizeRules elevenRules).length = 10 := by
  have h := c10_rule_cap cfgHeuristicOnly parseNone outcomeThrow elevenRules none
    "hello world" (by decide) (by decide)
  exact ⟨by decide, by decide, h.2.1⟩
